import Mathlib

/-!
Formal model of the Links-Folder extension core (src/explore.tsx).

The hierarchical item store is embedded as follows:
- SavedApp, AnyItem, LinksData mirror the TypeScript types of the same names.
- Json is a model of runtime JavaScript/JSON values; the constructor undefined
  stands for the JavaScript undefined value that property access yields for
  a missing key.  truthy models JavaScript boolean coercion.
- generateId is impure in the source (time plus randomness); it is modeled
  by an abstract generator g : Nat -> String together with a counter that
  is threaded through every function that creates items, advancing by one
  per generated id, in the exact evaluation order of the source.
- File system access in loadLinks is modeled by a LoadEnv record giving,
  for every path, whether the file exists and what JSON.parse of its
  contents returns (none modeling a parse exception).
-/

namespace LinksFolder

/-- The SavedApp record of the source: name, path, optional bundleId. -/
structure SavedApp where
  name : String
  path : String
  bundleId : Option String
deriving DecidableEq, Repr

/-- The AnyItem union of the source: LinkItem or FolderItem.
A link carries id, title, url, optional icon, optional app;
a folder carries id, title, optional icon and a list of child items. -/
inductive AnyItem where
  | link (id title url : String) (icon : Option String) (app : Option SavedApp)
  | folder (id title : String) (icon : Option String) (items : List AnyItem)
deriving Repr

/-- The LinksData document of the source: a top level list of items. -/
structure LinksData where
  items : List AnyItem
deriving Repr

/-- The id field common to both item variants. -/
def idOf : AnyItem → String
  | .link i _ _ _ _ => i
  | .folder i _ _ _ => i

/-- The title field common to both item variants. -/
def titleOf : AnyItem → String
  | .link _ t _ _ _ => t
  | .folder _ t _ _ => t

/-- Replacing the title field, as the assignment to copyItem.title does. -/
def withTitle : AnyItem → String → AnyItem
  | .link i _ u ic ap, t => .link i t u ic ap
  | .folder i _ ic cs, t => .folder i t ic cs

/-- The child list of an item: the items field for folders, empty for links. -/
def childrenOf : AnyItem → List AnyItem
  | .link _ _ _ _ _ => []
  | .folder _ _ _ cs => cs

mutual

/-- All ids of the subtree rooted at an item, in depth first preorder. -/
def itemIds : AnyItem → List String
  | .link i _ _ _ _ => [i]
  | .folder i _ _ cs => i :: listIds cs

/-- All ids of a forest, in depth first preorder. -/
def listIds : List AnyItem → List String
  | [] => []
  | x :: xs => itemIds x ++ listIds xs

end

/-- Runtime JavaScript/JSON values.  undefined models the undefined value. -/
inductive Json where
  | null
  | undefined
  | bool (b : Bool)
  | num (n : Int)
  | str (s : String)
  | arr (elems : List Json)
  | obj (fields : List (String × Json))
deriving Repr

/-- JavaScript boolean coercion of a value. -/
def truthy : Json → Bool
  | .null => false
  | .undefined => false
  | .bool b => b
  | .num n => n != 0
  | .str s => s != ""
  | .arr _ => true
  | .obj _ => true

/-- First binding of a key in an object field list. -/
def lookupField : List (String × Json) → String → Option Json
  | [], _ => none
  | (k, v) :: rest, key => if k = key then some v else lookupField rest key

/-- JavaScript property access o.k: the bound value for an object with the
key, undefined otherwise (also for non objects, as after the unchecked
casts in the source). -/
def jsGet : Json → String → Json
  | .obj fs, k =>
    match lookupField fs k with
    | some v => v
    | none => .undefined
  | _, _ => .undefined

/-- The check data and typeof data === "object" and "items" in data and
Array.isArray(d.items) from migrateData, deciding the current schema. -/
def hasItemsArray (data : Json) : Bool :=
  match jsGet data "items" with
  | .arr _ => true
  | _ => false

theorem sizeOf_lookupField {fs : List (String × Json)} {k : String} {v : Json}
    (h : lookupField fs k = some v) : sizeOf v < sizeOf fs := by
  induction fs with
  | nil => simp [lookupField] at h
  | cons p rest ih =>
    obtain ⟨pk, pv⟩ := p
    by_cases hk : pk = k
    · simp only [lookupField, hk, if_pos] at h
      cases h
      simp only [List.cons.sizeOf_spec, Prod.mk.sizeOf_spec]
      omega
    · simp only [lookupField, hk, if_neg, not_false_iff] at h
      have := ih h
      simp only [List.cons.sizeOf_spec]
      omega

theorem one_le_sizeOf_json (j : Json) : 1 ≤ sizeOf j := by
  cases j <;> simp only [Json.null.sizeOf_spec, Json.undefined.sizeOf_spec, Json.bool.sizeOf_spec,
    Json.num.sizeOf_spec, Json.str.sizeOf_spec, Json.arr.sizeOf_spec, Json.obj.sizeOf_spec] <;>
    omega

theorem sizeOf_jsGet_le (f : Json) (k : String) : sizeOf (jsGet f k) ≤ sizeOf f := by
  cases f with
  | obj fs =>
    simp only [jsGet]
    cases h : lookupField fs k with
    | none =>
      simp only [Json.obj.sizeOf_spec, Json.undefined.sizeOf_spec]
      omega
    | some v =>
      have := sizeOf_lookupField h
      simp only [Json.obj.sizeOf_spec]
      omega
  | null => simp [jsGet]
  | undefined => simp [jsGet]
  | bool b => simp only [jsGet, Json.undefined.sizeOf_spec, Json.bool.sizeOf_spec]; omega
  | num n => simp only [jsGet, Json.undefined.sizeOf_spec, Json.num.sizeOf_spec]; omega
  | str s => simp only [jsGet, Json.undefined.sizeOf_spec, Json.str.sizeOf_spec]; omega
  | arr xs => simp only [jsGet, Json.undefined.sizeOf_spec, Json.arr.sizeOf_spec]; omega

/-- Conversion of one legacy link object inside migrateData: the object
literal with fields id (the existing one, or a generated id when falsy),
type, title (falling back to url when falsy), url, icon and app.  The
counter advances exactly when an id is generated. -/
def convertLink (g : Nat → String) (l : Json) (c : Nat) : Json × Nat :=
  let idr : Json × Nat :=
    if truthy (jsGet l "id") then (jsGet l "id", c) else (.str (g c), c + 1)
  (.obj [("id", idr.1), ("type", .str "link"),
         ("title", if truthy (jsGet l "title") then jsGet l "title" else jsGet l "url"),
         ("url", jsGet l "url"), ("icon", jsGet l "icon"), ("app", jsGet l "app")],
   idr.2)

/-- The forEach loop over a legacy links array, pushing converted links. -/
def convertLinks (g : Nat → String) : List Json → Nat → List Json × Nat
  | [], c => ([], c)
  | l :: ls, c =>
    let r := convertLink g l c
    let rs := convertLinks g ls r.2
    (r.1 :: rs.1, rs.2)

mutual

/-- The convertFolder function of migrateData: subItems is built by first
converting the nested folders array (when present), then appending the
converted links array (when present); the returned object evaluates its
id field (possibly generating an id) only after the children, matching
the evaluation order of the source. -/
def convertFolder (g : Nat → String) : Json → Nat → Json × Nat
  | f, c =>
    let rf : List Json × Nat :=
      match hf : jsGet f "folders" with
      | .arr subs => convertFolderList g subs c
      | _ => ([], c)
    let rl : List Json × Nat :=
      match jsGet f "links" with
      | .arr ls => convertLinks g ls rf.2
      | _ => ([], rf.2)
    let idr : Json × Nat :=
      if truthy (jsGet f "id") then (jsGet f "id", rl.2) else (.str (g rl.2), rl.2 + 1)
    (.obj [("id", idr.1), ("type", .str "folder"),
           ("title",
            if truthy (jsGet f "title") then jsGet f "title"
            else if truthy (jsGet f "name") then jsGet f "name" else .str "Unnamed Folder"),
           ("icon", jsGet f "icon"),
           ("items", .arr (rf.1 ++ rl.1))],
     idr.2)
termination_by f _ => sizeOf f
decreasing_by
  have h := sizeOf_jsGet_le f "folders"
  rw [hf] at h
  simp only [Json.arr.sizeOf_spec] at h
  omega

/-- The forEach loop over a legacy folders array, pushing converted folders. -/
def convertFolderList (g : Nat → String) : List Json → Nat → List Json × Nat
  | [], c => ([], c)
  | x :: xs, c =>
    let r := convertFolder g x c
    let rs := convertFolderList g xs r.2
    (r.1 :: rs.1, rs.2)
termination_by l _ => sizeOf l

end

/-- The migrateData function: pass the document through unchanged when it
already has an items array; otherwise convert a legacy folders array;
otherwise return the empty document. -/
def migrateData (g : Nat → String) (data : Json) (c : Nat) : Json × Nat :=
  if hasItemsArray data then (data, c)
  else
    match jsGet data "folders" with
    | .arr fs =>
      let r := convertFolderList g fs c
      (.obj [("items", .arr r.1)], r.2)
    | _ => (.obj [("items", .arr [])], c)

/-- JSON serialization of a SavedApp, as JSON.stringify renders it: the
bundleId key is dropped when it is undefined. -/
def encodeApp : SavedApp → Json
  | ⟨n, p, some b⟩ => .obj [("name", .str n), ("path", .str p), ("bundleId", .str b)]
  | ⟨n, p, none⟩ => .obj [("name", .str n), ("path", .str p)]

mutual

/-- JSON serialization of one item, as JSON.stringify renders the objects
built by the source (fields in construction order; keys whose value is
undefined are dropped). -/
def encodeItem : AnyItem → Json
  | .link i t u ic ap =>
    .obj ([("id", .str i), ("type", .str "link"), ("title", .str t), ("url", .str u)]
      ++ (match ic with | some s => [("icon", Json.str s)] | none => [])
      ++ (match ap with | some a => [("app", encodeApp a)] | none => []))
  | .folder i t ic cs =>
    .obj ([("id", .str i), ("type", .str "folder"), ("title", .str t)]
      ++ (match ic with | some s => [("icon", Json.str s)] | none => [])
      ++ [("items", .arr (encodeItems cs))])

/-- JSON serialization of a list of items. -/
def encodeItems : List AnyItem → List Json
  | [] => []
  | x :: xs => encodeItem x :: encodeItems xs

end

/-- JSON serialization of the whole document. -/
def encodeLinksData (d : LinksData) : Json :=
  .obj [("items", .arr (encodeItems d.items))]

/-- The saveLinks function: the JSON document that
JSON.stringify(data, null, 2) writes to the resolved target path. -/
def saveLinks (d : LinksData) : Json := encodeLinksData d

/-- Structural reading of a serialized SavedApp back into the record. -/
def decodeApp (j : Json) : Option SavedApp :=
  match jsGet j "name", jsGet j "path" with
  | .str n, .str p =>
    some ⟨n, p, match jsGet j "bundleId" with | .str b => some b | _ => none⟩
  | _, _ => none

/-- Structural reading of an optional icon field: a string when the key
holds one, absent otherwise. -/
def decodeIconField (j : Json) : Option String :=
  match jsGet j "icon" with
  | .str s => some s
  | _ => none

mutual

/-- Structural reading of a serialized item back into the tree, inverse
to encodeItem on its image; any other shape reads as none. -/
def decodeItem (j : Json) : Option AnyItem :=
  match jsGet j "type", jsGet j "id", jsGet j "title" with
    | .str "link", .str i, .str t =>
      (match jsGet j "url" with
       | .str u => some (.link i t u (decodeIconField j) (decodeApp (jsGet j "app")))
       | _ => none)
    | .str "folder", .str i, .str t =>
      (match hI : jsGet j "items" with
       | .arr cs => (decodeItems cs).map (fun l => .folder i t (decodeIconField j) l)
       | _ => none)
    | _, _, _ => none
termination_by sizeOf j
decreasing_by
  all_goals
    first
    | (have h := sizeOf_jsGet_le j "items"
       rw [hI] at h
       simp only [Json.arr.sizeOf_spec] at h
       omega)
    | (simp only [List.cons.sizeOf_spec]
       omega)
    | decreasing_tactic

/-- Structural reading of a serialized item list. -/
def decodeItems : List Json → Option (List AnyItem)
  | [] => some []
  | x :: xs =>
    match decodeItem x, decodeItems xs with
    | some a, some l => some (a :: l)
    | _, _ => none
termination_by l => sizeOf l
decreasing_by
  all_goals
    first
    | (simp only [List.cons.sizeOf_spec]
       omega)
    | decreasing_tactic

end

/-- Structural reading of a serialized document. -/
def decodeLinksData : Json → Option LinksData
  | .obj [("items", .arr xs)] => (decodeItems xs).map LinksData.mk
  | _ => none

/-- The file system and preferences environment that loadLinks consults:
the optional user configured path (already trimmed, empty treated as
unset, as getPreferencePath does), existence of files, the result of
JSON.parse on the contents of each existing file (none models a parse
exception, which loadLinks logs and swallows), and the two fixed
candidate paths built with path.join. -/
structure LoadEnv where
  prefPath : Option String
  fsExists : String → Bool
  parse : String → Option Json
  supportLinksPath : String
  assetsLinksPath : String

/-- The tryLoad helper of loadLinks: the parsed contents of an existing
file, or the JavaScript null (returned both when the file is missing and
when JSON.parse throws, the latter after logging). -/
def tryLoad (env : LoadEnv) (p : String) : Json :=
  if env.fsExists p then
    match env.parse p with
    | some j => j
    | none => .null
  else .null

/-- The first operand of the fallback chain:
prefPath ? tryLoad(prefPath) : null. -/
def prefCandidate (env : LoadEnv) : Json :=
  match env.prefPath with
  | some p => tryLoad env p
  | none => .null

/-- The JavaScript or operator on values: the left operand when truthy,
the right one otherwise. -/
def jsOr (a b : Json) : Json := if truthy a then a else b

/-- The rawData fallback chain of loadLinks. -/
def loadRaw (env : LoadEnv) : Json :=
  jsOr (prefCandidate env)
    (jsOr (tryLoad env env.supportLinksPath)
      (jsOr (tryLoad env env.assetsLinksPath) (.obj [("items", .arr [])])))

/-- The loadLinks function: resolve the raw document through the fallback
chain, then migrate it. -/
def loadLinks (env : LoadEnv) (g : Nat → String) (c : Nat) : Json × Nat :=
  migrateData g (loadRaw env) c

/-- The traverse helper of updateFolder, rendered functionally: walk the
item list in order; at the first folder whose id matches, replace its
child list with the updater result and stop (flag true); otherwise search
that folder's children first, then the remaining siblings.  A traversal
returning false assigned nothing, so the list is returned unchanged. -/
def traverseUpd (fid : String) (u : List AnyItem → List AnyItem) :
    List AnyItem → List AnyItem × Bool
  | [] => ([], false)
  | .link i t url ic ap :: rest =>
    let r := traverseUpd fid u rest
    (.link i t url ic ap :: r.1, r.2)
  | .folder i t ic cs :: rest =>
    if i = fid then (.folder i t ic (u cs) :: rest, true)
    else
      let rc := traverseUpd fid u cs
      if rc.2 then (.folder i t ic rc.1 :: rest, true)
      else
        let rr := traverseUpd fid u rest
        (.folder i t ic cs :: rr.1, rr.2)

/-- The updateFolder function.  The source guard if (!folderId) is the
JavaScript coercion: it takes the top level branch both for null and for
the empty string. -/
def updateFolder (d : LinksData) (folderId : Option String)
    (u : List AnyItem → List AnyItem) : LinksData :=
  match folderId with
  | none => ⟨u d.items⟩
  | some fid =>
    if fid = "" then ⟨u d.items⟩
    else ⟨(traverseUpd fid u d.items).1⟩

/-- items.findIndex((i) => i.id === itemId), as an optional index. -/
def findIdxById (itemId : String) : List AnyItem → Option Nat
  | [] => none
  | x :: xs =>
    if idOf x = itemId then some 0
    else (findIdxById itemId xs).map (· + 1)

/-- copy.splice(idx, 1): removing the element at an index. -/
def eraseAt : Nat → List AnyItem → List AnyItem
  | _, [] => []
  | 0, _ :: xs => xs
  | n + 1, x :: xs => x :: eraseAt n xs

/-- copy.splice(idx, 0, moved): inserting an element at an index,
clamped to the end of the list as splice does. -/
def insertAt : Nat → AnyItem → List AnyItem → List AnyItem
  | 0, a, l => a :: l
  | _ + 1, a, [] => [a]
  | n + 1, a, x :: xs => x :: insertAt n a xs

/-- The updater closure of moveItem: locate the item by id; when the
target index idx + delta is out of bounds return the list unchanged,
otherwise remove the item and reinsert it at the target index. -/
def moveInList (itemId : String) (delta : Int) (items : List AnyItem) : List AnyItem :=
  match findIdxById itemId items with
  | none => items
  | some idx =>
    let newIdx : Int := (idx : Int) + delta
    if newIdx < 0 ∨ (items.length : Int) ≤ newIdx then items
    else
      match items.get? idx with
      | none => items
      | some moved => insertAt newIdx.toNat moved (eraseAt idx items)

/-- The moveItem operation applied to a freshly loaded document. -/
def moveItem (d : LinksData) (folderId : Option String) (itemId : String)
    (delta : Int) : LinksData :=
  updateFolder d folderId (moveInList itemId delta)

mutual

/-- The deepCloneItem function: a structural copy of the subtree with a
generated id at every node.  The object literal evaluates the new id
before the cloned children, so the counter visits the subtree in
depth first preorder. -/
def deepCloneItem (g : Nat → String) : AnyItem → Nat → AnyItem × Nat
  | .link _ t u ic ap, c => (.link (g c) t u ic ap, c + 1)
  | .folder _ t ic cs, c =>
    let r := deepCloneList g cs (c + 1)
    (.folder (g c) t ic r.1, r.2)

/-- item.items.map(deepCloneItem), with the counter threaded left to
right. -/
def deepCloneList (g : Nat → String) : List AnyItem → Nat → List AnyItem × Nat
  | [], c => ([], c)
  | x :: xs, c =>
    let r1 := deepCloneItem g x c
    let r2 := deepCloneList g xs r1.2
    (r1.1 :: r2.1, r2.2)

end

/-- The updater closure of duplicateItem: locate the item by id, deep
clone it, append the literal " (Copy)" to the clone title, and insert the
clone immediately after the original. -/
def duplicateInList (g : Nat → String) (c : Nat) (itemId : String)
    (items : List AnyItem) : List AnyItem :=
  match findIdxById itemId items with
  | none => items
  | some idx =>
    match items.get? idx with
    | none => items
    | some original =>
      let copyItem := (deepCloneItem g original c).1
      let copyItem2 := withTitle copyItem (titleOf copyItem ++ " (Copy)")
      insertAt (idx + 1) copyItem2 items

/-- The duplicateItem operation applied to a freshly loaded document. -/
def duplicateItem (g : Nat → String) (c : Nat) (d : LinksData)
    (folderId : Option String) (itemId : String) : LinksData :=
  updateFolder d folderId (duplicateInList g c itemId)

/-- The JavaScript string trim method: leading and trailing whitespace
removed. -/
def jsTrim (s : String) : String :=
  .mk (((s.data.dropWhile Char.isWhitespace).reverse.dropWhile Char.isWhitespace).reverse)

/-- The handleSubmit function of AddLinkForm, from the loaded document to
the document passed to saveLinks: unconditionally append a new link whose
title falls back to the raw url field when the trimmed title is empty and
whose icon is dropped when blank.  No input validation occurs. -/
def addLinkHandleSubmit (g : Nat → String) (c : Nat) (folderId : Option String)
    (title url icon : String) (appToSave : Option SavedApp) (data : LinksData) : LinksData :=
  updateFolder data folderId (fun items =>
    items ++ [AnyItem.link (g c)
      (if jsTrim title = "" then url else jsTrim title)
      (jsTrim url)
      (if jsTrim icon = "" then none else some (jsTrim icon))
      appToSave])

/-- The url and optional app that getAllLinksData collects per link. -/
structure LinkData where
  url : String
  app : Option SavedApp
deriving DecidableEq, Repr

/-- The getAllLinksData function, on the child list of a folder: direct
links are pushed in place, folder children are expanded recursively. -/
def getAllLinksData : List AnyItem → List LinkData
  | [] => []
  | .link _ _ u _ ap :: rest => ⟨u, ap⟩ :: getAllLinksData rest
  | .folder _ _ _ cs :: rest => getAllLinksData cs ++ getAllLinksData rest

/-- The toast shown by openAllLinks: the failure toast for a folder with
no links anywhere, or the success toast with the number of links. -/
inductive ToastMsg where
  | noLinks
  | openedCount (n : Nat)
deriving DecidableEq, Repr

/-- The for loop of openAllLinks: each iteration calls openUrl, whose
outcome the environment res gives per call position; an exception is
caught, logged and the loop continues, so both branches count one attempt
and proceed. -/
def openLoopAttempts (res : Nat → Except Unit Unit) : List LinkData → Nat → Nat
  | [], _ => 0
  | _ :: rest, k =>
    match res k with
    | .ok _ => 1 + openLoopAttempts res rest (k + 1)
    | .error _ => 1 + openLoopAttempts res rest (k + 1)

/-- The openAllLinks function on the child list of a folder: collect all
links; with none, show the failure toast and attempt nothing; otherwise
run the open loop and show the success toast with the collected count. -/
def openAllLinks (res : Nat → Except Unit Unit) (folderItems : List AnyItem) :
    ToastMsg × Nat :=
  let links := getAllLinksData folderItems
  if links.length = 0 then (.noLinks, 0)
  else (.openedCount links.length, openLoopAttempts res links 0)

/-!
Specification side definitions.  These are written from the wording of
the specification, to be compared with the functions above. -/

/-- Depth first preorder traversal of a forest, from the specification
wording: each node before its children, children before later siblings. -/
def preorder : List AnyItem → List AnyItem
  | [] => []
  | .link i t u ic ap :: xs => .link i t u ic ap :: preorder xs
  | .folder i t ic cs :: xs => .folder i t ic cs :: (preorder cs ++ preorder xs)

/-- The link payloads of the top layer of a traversal, folders skipped. -/
def linkDatas : List AnyItem → List LinkData
  | [] => []
  | .link _ _ u _ ap :: xs => ⟨u, ap⟩ :: linkDatas xs
  | .folder _ _ _ _ :: xs => linkDatas xs

mutual

/-- Specification reading of the mutator scope: apply the updater to the
child list of every folder with the given id, wherever nested, and
nothing else. -/
def applyAtItem (fid : String) (u : List AnyItem → List AnyItem) : AnyItem → AnyItem
  | .link i t url ic ap => .link i t url ic ap
  | .folder i t ic cs =>
    if i = fid then .folder i t ic (u cs)
    else .folder i t ic (applyAtList fid u cs)

/-- applyAtItem mapped over a forest. -/
def applyAtList (fid : String) (u : List AnyItem → List AnyItem) :
    List AnyItem → List AnyItem
  | [] => []
  | x :: xs => applyAtItem fid u x :: applyAtList fid u xs

end

mutual

/-- Number of folders with a given id in the subtree of an item. -/
def countFolderId (fid : String) : AnyItem → Nat
  | .link _ _ _ _ _ => 0
  | .folder i _ _ cs => (if i = fid then 1 else 0) + countListId fid cs

/-- Number of folders with a given id in a forest. -/
def countListId (fid : String) : List AnyItem → Nat
  | [] => 0
  | x :: xs => countFolderId fid x + countListId fid xs

end

mutual

/-- Erasing every id of a subtree, for stating that deep cloning changes
nothing but the ids. -/
def stripIds : AnyItem → AnyItem
  | .link _ t u ic ap => .link "" t u ic ap
  | .folder _ t ic cs => .folder "" t ic (stripIdsList cs)

/-- stripIds mapped over a forest. -/
def stripIdsList : List AnyItem → List AnyItem
  | [] => []
  | x :: xs => stripIds x :: stripIdsList xs

end

/-!
Concrete data used to instantiate the properties. -/

/-- The legacy document of the migration correctness property. -/
def legacyDoc : Json :=
  .obj [("folders", .arr [.obj [("id", .str "work"), ("name", .str "Work"),
    ("links", .arr [.obj [("title", .str "Gmail"),
      ("url", .str "https://mail.google.com")]])]])]

/-- Child list of a folder with 2 direct links and 1 subfolder holding 1
link. -/
def exampleFolderItems : List AnyItem :=
  [.link "l1" "A" "https://a.example" none none,
   .link "l2" "B" "https://b.example" none none,
   .folder "f1" "Sub" none [.link "l3" "C" "https://c.example" none none]]

/-- Child list of a folder with zero links, recursively: only nested
empty folders. -/
def emptyFolderItems : List AnyItem :=
  [.folder "f2" "E1" none [], .folder "f3" "E2" none [.folder "f4" "E3" none []]]

/-- An environment where the configured path exists and holds the JSON
text null (which parses successfully to a falsy value), while the support
file holds a current schema document. -/
def loadEnvFalsyPref : LoadEnv where
  prefPath := some "p"
  fsExists := fun s => s == "p" || s == "s"
  parse := fun s =>
    if s = "p" then some Json.null
    else if s = "s" then some (.obj [("items", .arr [.str "x"])]) else none
  supportLinksPath := "s"
  assetsLinksPath := "as"

/-- An environment with no configured path where only the support file
exists, holding a current schema document. -/
def loadEnvSupportOnly : LoadEnv where
  prefPath := none
  fsExists := fun s => s == "s"
  parse := fun s => if s = "s" then some (.obj [("items", .arr [])]) else none
  supportLinksPath := "s"
  assetsLinksPath := "as"

/-!
Theorems. -/

theorem hasItemsArray_migrateData (g : Nat → String) (data : Json) (c : Nat) :
    hasItemsArray (migrateData g data c).1 = true := by
  by_cases h : hasItemsArray data
  · simp [migrateData, h]
  · simp only [migrateData, h, Bool.false_eq_true, if_neg, not_false_iff]
    cases hj : jsGet data "folders" <;>
      simp [hasItemsArray, jsGet, lookupField]

/-- C4: migrating a migrated document is a no-op, because the output of
migrateData always has an items array, which the pass-through branch
returns unchanged; and a document of neither the current nor the legacy
shape migrates to the empty document. -/
theorem migrateData_idempotent (g : Nat → String) (data : Json) (c k : Nat) :
    migrateData g (migrateData g data c).1 k = ((migrateData g data c).1, k) ∧
    (hasItemsArray data = false →
      (∀ fs, jsGet data "folders" ≠ .arr fs) →
      migrateData g data c = (.obj [("items", .arr [])], c)) := by
  constructor
  · have h := hasItemsArray_migrateData g data c
    set m := (migrateData g data c).1 with hm
    simp [migrateData, h]
  · intro h1 h2
    simp only [migrateData, h1, Bool.false_eq_true, if_neg, not_false_iff]

/-- Witness for C4: a number is neither the current nor the legacy shape
and migrates to the empty document. -/
theorem migrateData_idempotent_witness :
    migrateData (fun _ => "a") (Json.num 5) 0 = (.obj [("items", .arr [])], 0) :=
  (migrateData_idempotent (fun _ => "a") (Json.num 5) 0 0).2
    (by simp [hasItemsArray, jsGet])
    (by intro fs; simp [jsGet])

/-- C3: migrating the concrete legacy document yields one folder with the
kept id work and title Work, holding one link titled Gmail with the given
url, a generated non-empty id, and undefined icon and app; in general a
converted folder builds its children from the converted nested folders
followed by the converted links, the counter flowing left to right. -/
theorem migrate_legacy_example (g : Nat → String) (h : g 0 ≠ "") :
    migrateData g legacyDoc 0 =
      (.obj [("items", .arr [.obj [("id", .str "work"), ("type", .str "folder"),
        ("title", .str "Work"), ("icon", .undefined),
        ("items", .arr [.obj [("id", .str (g 0)), ("type", .str "link"),
          ("title", .str "Gmail"), ("url", .str "https://mail.google.com"),
          ("icon", .undefined), ("app", .undefined)]])]])], 1) ∧
    g 0 ≠ "" ∧
    (∀ f c subs ls, jsGet f "folders" = .arr subs → jsGet f "links" = .arr ls →
      jsGet (convertFolder g f c).1 "items" =
        .arr ((convertFolderList g subs c).1 ++
          (convertLinks g ls (convertFolderList g subs c).2).1)) := by
  refine ⟨?_, h, ?_⟩
  · simp [migrateData, legacyDoc, hasItemsArray, jsGet, lookupField, convertFolderList,
      convertFolder, convertLinks, convertLink, truthy]
  · intro f c subs ls h1 h2
    rw [convertFolder]
    simp only [h1, h2]
    simp [jsGet, lookupField]
    split
    · rename_i subs2 heq
      have h3 : Json.arr subs = Json.arr subs2 := h1.symm.trans heq
      injection h3 with h4
      subst h4
      rfl
    · rename_i hx
      exact absurd (h1.symm.trans (rfl)) (by intro hcon; exact hx subs hcon.symm)

/-- Witness for C3: the concrete migration with a fixed generator. -/
theorem migrate_legacy_example_witness :
    migrateData (fun _ => "a") legacyDoc 0 =
      (.obj [("items", .arr [.obj [("id", .str "work"), ("type", .str "folder"),
        ("title", .str "Work"), ("icon", .undefined),
        ("items", .arr [.obj [("id", .str "a"), ("type", .str "link"),
          ("title", .str "Gmail"), ("url", .str "https://mail.google.com"),
          ("icon", .undefined), ("app", .undefined)]])]])], 1) :=
  (migrate_legacy_example (fun _ => "a") (by simp)).1

theorem openLoopAttempts_eq_length (res : Nat → Except Unit Unit)
    (links : List LinkData) (k : Nat) :
    openLoopAttempts res links k = links.length := by
  induction links generalizing k with
  | nil => simp [openLoopAttempts]
  | cons l rest ih =>
    cases hr : res k <;> simp [openLoopAttempts, hr, ih] <;> omega

theorem getAllLinksData_eq_preorder (items : List AnyItem) :
    getAllLinksData items = linkDatas (preorder items) := by
  induction items using getAllLinksData.induct with
  | case1 => simp [getAllLinksData, preorder, linkDatas]
  | case2 i t u ic ap rest ih =>
    simp [getAllLinksData, preorder, linkDatas, ih]
  | case3 i t ic cs rest ihcs ihrest =>
    simp only [getAllLinksData, preorder, linkDatas, ihcs, ihrest]
    induction preorder cs with
    | nil => simp [linkDatas]
    | cons x xs ihx =>
      cases x <;> simp [linkDatas, ihx]

/-- C7: the open loop of openAllLinks makes one attempt per collected
link whatever the outcome of each external open call; the collected
links are exactly the links of the subtree in depth first preorder; the
folder with 2 direct links and a subfolder holding 1 link yields exactly
3 attempts and the success toast for 3; a folder with no links anywhere
yields the distinct no-links toast and zero attempts. -/
theorem openAllLinks_aggregation (res : Nat → Except Unit Unit)
    (links : List LinkData) (k : Nat) (items : List AnyItem) :
    openLoopAttempts res links k = links.length ∧
    getAllLinksData items = linkDatas (preorder items) ∧
    openAllLinks res exampleFolderItems = (.openedCount 3, 3) ∧
    openAllLinks res emptyFolderItems = (.noLinks, 0) := by
  refine ⟨openLoopAttempts_eq_length res links k, getAllLinksData_eq_preorder items, ?_, ?_⟩
  · simp [openAllLinks, exampleFolderItems, getAllLinksData, openLoopAttempts_eq_length]
  · simp [openAllLinks, emptyFolderItems, getAllLinksData]

theorem decodeApp_encodeApp (a : SavedApp) : decodeApp (encodeApp a) = some a := by
  obtain ⟨n, p, b⟩ := a
  cases b <;> simp [encodeApp, decodeApp, jsGet, lookupField]

theorem decodeApp_undef : decodeApp .undefined = none := rfl

mutual

theorem decodeItem_encodeItem (x : AnyItem) : decodeItem (encodeItem x) = some x := by
  cases x with
  | link i t u ic ap =>
    cases ic <;> cases ap <;>
      simp [encodeItem, decodeItem, decodeIconField, decodeApp_encodeApp, decodeApp_undef,
        jsGet, lookupField]
  | folder i t ic cs =>
    cases ic <;>
      simp [encodeItem, decodeItem, decodeIconField, decodeItems_encodeItems cs,
        jsGet, lookupField]

theorem decodeItems_encodeItems (l : List AnyItem) : decodeItems (encodeItems l) = some l := by
  cases l with
  | nil => simp [encodeItems, decodeItems]
  | cons x xs =>
    simp [encodeItems, decodeItems, decodeItem_encodeItem x, decodeItems_encodeItems xs]

end

/-- C2: saving a document and loading it back reproduces the document:
the serialized tree passes the migrator unchanged (pass-through branch)
and reads back structurally equal, id for id. -/
theorem save_load_roundTrip (g : Nat → String) (c : Nat) (T : LinksData) :
    migrateData g (saveLinks T) c = (saveLinks T, c) ∧
    decodeLinksData (migrateData g (saveLinks T) c).1 = some T := by
  have hpass : hasItemsArray (Json.obj [("items", Json.arr (encodeItems T.items))]) = true := by
    simp [hasItemsArray, jsGet, lookupField]
  constructor
  · simp [migrateData, saveLinks, encodeLinksData, hpass]
  · simp [migrateData, saveLinks, encodeLinksData, hpass, decodeLinksData,
      decodeItems_encodeItems]

/-- C9 counterexample: submitting the add link form with an empty url is
not rejected before file processing: the submission runs through and the
document passed to saveLinks gains a link whose url and title are both
empty, so the stored document does change. -/
theorem addLink_emptyUrl_counterexample :
    addLinkHandleSubmit (fun _ => "a") 0 none "" "" "" none ⟨[]⟩ =
      ⟨[AnyItem.link "a" "" "" none none]⟩ ∧
    addLinkHandleSubmit (fun _ => "a") 0 none "" "" "" none ⟨[]⟩ ≠ (⟨[]⟩ : LinksData) := by
  have h0 : jsTrim "" = "" := rfl
  constructor
  · simp [addLinkHandleSubmit, updateFolder, h0]
  · simp [addLinkHandleSubmit, updateFolder, h0]

/-- C9 amended: the add link submission with an empty url performs no
rejection at all: for every starting document it appends a link with
empty url (title falling back to the empty url when the trimmed title is
empty), growing the child list by one, and this document is what gets
saved. -/
theorem addLink_emptyUrl_persists (g : Nat → String) (c : Nat) (title icon : String)
    (ap : Option SavedApp) (data : LinksData) :
    addLinkHandleSubmit g c none title "" icon ap data =
      ⟨data.items ++ [AnyItem.link (g c) (if jsTrim title = "" then "" else jsTrim title) ""
        (if jsTrim icon = "" then none else some (jsTrim icon)) ap]⟩ ∧
    (addLinkHandleSubmit g c none title "" icon ap data).items.length =
      data.items.length + 1 := by
  have h0 : jsTrim "" = "" := rfl
  constructor
  · simp [addLinkHandleSubmit, updateFolder, h0]
  · simp [addLinkHandleSubmit, updateFolder, h0]

/-- C8 counterexample: the configured path exists and its contents parse
successfully (to the JSON value null), yet loadLinks skips it because the
parsed value is falsy, returning the support file document instead of the
migration of the first parsed candidate. -/
theorem loadLinks_falsy_candidate_counterexample :
    loadEnvFalsyPref.fsExists "p" = true ∧
    loadEnvFalsyPref.parse "p" = some Json.null ∧
    loadLinks loadEnvFalsyPref (fun _ => "a") 0 = (.obj [("items", .arr [.str "x"])], 0) ∧
    (.obj [("items", .arr [.str "x"])] : Json) ≠
      (migrateData (fun _ => "a") Json.null 0).1 := by
  refine ⟨rfl, rfl, ?_, ?_⟩
  · simp [loadLinks, loadRaw, prefCandidate, tryLoad, jsOr, truthy, loadEnvFalsyPref,
      migrateData, hasItemsArray, jsGet, lookupField]
  · simp [migrateData, hasItemsArray, jsGet]

/-- C8 amended: loadLinks tries the configured path, then the support
path, then the assets path, in that order, but a candidate is used only
when it exists, parses, and the parsed value is truthy: a candidate that
is missing, fails to parse, or parses to a falsy JSON value (null, false,
0 or the empty string) is skipped in favor of the next; when every
candidate is skipped the result is the empty document, without error. -/
theorem loadLinks_fallback_order (env : LoadEnv) (g : Nat → String) (c : Nat) :
    (truthy (prefCandidate env) = true →
      loadLinks env g c = migrateData g (prefCandidate env) c) ∧
    (truthy (prefCandidate env) = false →
      truthy (tryLoad env env.supportLinksPath) = true →
      loadLinks env g c = migrateData g (tryLoad env env.supportLinksPath) c) ∧
    (truthy (prefCandidate env) = false →
      truthy (tryLoad env env.supportLinksPath) = false →
      truthy (tryLoad env env.assetsLinksPath) = true →
      loadLinks env g c = migrateData g (tryLoad env env.assetsLinksPath) c) ∧
    (truthy (prefCandidate env) = false →
      truthy (tryLoad env env.supportLinksPath) = false →
      truthy (tryLoad env env.assetsLinksPath) = false →
      loadLinks env g c = (.obj [("items", .arr [])], c)) := by
  refine ⟨?_, ?_, ?_, ?_⟩
  · intro h1
    simp [loadLinks, loadRaw, jsOr, h1]
  · intro h1 h2
    simp [loadLinks, loadRaw, jsOr, h1, h2]
  · intro h1 h2 h3
    simp [loadLinks, loadRaw, jsOr, h1, h2, h3]
  · intro h1 h2 h3
    simp [loadLinks, loadRaw, jsOr, h1, h2, h3, migrateData, hasItemsArray, jsGet,
      lookupField]

/-- Witness for the C8 amended theorem: with no configured path and only
the support file present and truthy, loadLinks returns its migration. -/
theorem loadLinks_fallback_order_witness :
    loadLinks loadEnvSupportOnly (fun _ => "a") 0 =
      migrateData (fun _ => "a") (tryLoad loadEnvSupportOnly loadEnvSupportOnly.supportLinksPath) 0 :=
  (loadLinks_fallback_order loadEnvSupportOnly (fun _ => "a") 0).2.1 rfl rfl

mutual

theorem deepCloneItem_counter (g : Nat → String) (x : AnyItem) (c : Nat) :
    (deepCloneItem g x c).2 = c + (itemIds x).length := by
  cases x with
  | link i t u ic ap => simp [deepCloneItem, itemIds]
  | folder i t ic cs =>
    simp only [deepCloneItem, itemIds, List.length_cons,
      deepCloneList_counter g cs (c + 1)]
    omega

theorem deepCloneList_counter (g : Nat → String) (l : List AnyItem) (c : Nat) :
    (deepCloneList g l c).2 = c + (listIds l).length := by
  cases l with
  | nil => simp [deepCloneList, listIds]
  | cons x xs =>
    simp only [deepCloneList, listIds, List.length_append,
      deepCloneItem_counter g x c, deepCloneList_counter g xs (c + (itemIds x).length)]
    omega

end

mutual

theorem itemIds_deepCloneItem (g : Nat → String) (x : AnyItem) (c : Nat) :
    itemIds (deepCloneItem g x c).1 = (List.range' c (itemIds x).length).map g := by
  cases x with
  | link i t u ic ap => simp [deepCloneItem, itemIds, List.range'_one]
  | folder i t ic cs =>
    simp only [deepCloneItem, itemIds, List.length_cons,
      listIds_deepCloneList g cs (c + 1)]
    rw [← List.range'_append_1 c 1 (listIds cs).length]
    simp [List.range'_one]

theorem listIds_deepCloneList (g : Nat → String) (l : List AnyItem) (c : Nat) :
    listIds (deepCloneList g l c).1 = (List.range' c (listIds l).length).map g := by
  cases l with
  | nil => simp [deepCloneList, listIds]
  | cons x xs =>
    simp only [deepCloneList, listIds, List.length_append,
      itemIds_deepCloneItem g x c, deepCloneItem_counter g x c,
      listIds_deepCloneList g xs (c + (itemIds x).length)]
    rw [← List.map_append, List.range'_append_1,
      Nat.add_comm (listIds xs).length (itemIds x).length]

end

mutual

theorem stripIds_deepCloneItem (g : Nat → String) (x : AnyItem) (c : Nat) :
    stripIds (deepCloneItem g x c).1 = stripIds x := by
  cases x with
  | link i t u ic ap => simp [deepCloneItem, stripIds]
  | folder i t ic cs =>
    simp [deepCloneItem, stripIds, stripIdsList_deepCloneList g cs (c + 1)]

theorem stripIdsList_deepCloneList (g : Nat → String) (l : List AnyItem) (c : Nat) :
    stripIdsList (deepCloneList g l c).1 = stripIdsList l := by
  cases l with
  | nil => simp [deepCloneList]
  | cons x xs =>
    simp [deepCloneList, stripIdsList, stripIds_deepCloneItem g x c,
      stripIdsList_deepCloneList g xs (deepCloneItem g x c).2]

end

/-- C10: deep cloning changes only the ids: the clone has the same
structure with every id erased (same titles, urls, icons, apps, child
counts and order at every level), its ids are exactly the freshly
generated ones in preorder, the counter advances by the subtree size, and
the title suffix applied afterwards by duplicateItem through withTitle
changes the top title only, touching neither the id nor the children. -/
theorem deepCloneItem_only_ids (g : Nat → String) (x : AnyItem) (c : Nat)
    (y : AnyItem) (s : String) :
    stripIds (deepCloneItem g x c).1 = stripIds x ∧
    itemIds (deepCloneItem g x c).1 = (List.range' c (itemIds x).length).map g ∧
    (deepCloneItem g x c).2 = c + (itemIds x).length ∧
    titleOf (withTitle y s) = s ∧
    idOf (withTitle y s) = idOf y ∧
    childrenOf (withTitle y s) = childrenOf y ∧
    stripIds (withTitle y s) = withTitle (stripIds y) s := by
  refine ⟨stripIds_deepCloneItem g x c, itemIds_deepCloneItem g x c,
    deepCloneItem_counter g x c, ?_, ?_, ?_, ?_⟩ <;>
    cases y <;> simp [withTitle, titleOf, idOf, childrenOf, stripIds]

theorem itemIds_withTitle (y : AnyItem) (s : String) :
    itemIds (withTitle y s) = itemIds y := by
  cases y <;> simp [withTitle, itemIds]

theorem titleOf_withTitle (y : AnyItem) (s : String) : titleOf (withTitle y s) = s := by
  cases y <;> simp [withTitle, titleOf]

theorem titleOf_deepCloneItem (g : Nat → String) (x : AnyItem) (c : Nat) :
    titleOf (deepCloneItem g x c).1 = titleOf x := by
  cases x <;> simp [deepCloneItem, titleOf]

theorem findIdxById_append_cons (itemId : String) (pre post : List AnyItem) (a : AnyItem)
    (hpre : ∀ x ∈ pre, idOf x ≠ itemId) (ha : idOf a = itemId) :
    findIdxById itemId (pre ++ a :: post) = some pre.length := by
  induction pre with
  | nil => simp [findIdxById, ha]
  | cons y ys ih =>
    have hy : idOf y ≠ itemId := hpre y (by simp)
    simp [findIdxById, hy, ih (fun x hx => hpre x (by simp [hx]))]

theorem getAt_append_cons (pre post : List AnyItem) (a : AnyItem) :
    (pre ++ a :: post).get? pre.length = some a := by
  induction pre with
  | nil => rfl
  | cons y ys ih => simpa using ih

theorem insertAt_append (b : AnyItem) (pre post : List AnyItem) :
    insertAt pre.length b (pre ++ post) = pre ++ b :: post := by
  induction pre with
  | nil => rfl
  | cons y ys ih => simp [insertAt, ih]

theorem eraseAt_append_cons (pre post : List AnyItem) (a : AnyItem) :
    eraseAt pre.length (pre ++ a :: post) = pre ++ post := by
  induction pre with
  | nil => rfl
  | cons y ys ih => simp [eraseAt, ih]

/-- C5: duplicating the item with the given id in a child list inserts
the suffixed deep clone immediately after the original, leaving every
other position unchanged; the top clone title is the original title
followed by the literal " (Copy)"; and, whenever the generator output for
the consumed counter range is fresh (pairwise distinct and avoiding every
id of the original subtree), the clone carries exactly as many ids as the
original subtree, pairwise distinct and disjoint from the original ids. -/
theorem duplicateItem_uniqueness (g : Nat → String) (c : Nat) (itemId : String)
    (pre post : List AnyItem) (orig : AnyItem)
    (hpre : ∀ x ∈ pre, idOf x ≠ itemId)
    (horig : idOf orig = itemId)
    (hnodup : ((List.range' c (itemIds orig).length).map g).Nodup)
    (hfresh : ∀ s ∈ (List.range' c (itemIds orig).length).map g, s ∉ itemIds orig) :
    duplicateInList g c itemId (pre ++ orig :: post) =
      pre ++ orig :: withTitle (deepCloneItem g orig c).1
        (titleOf (deepCloneItem g orig c).1 ++ " (Copy)") :: post ∧
    titleOf (withTitle (deepCloneItem g orig c).1
      (titleOf (deepCloneItem g orig c).1 ++ " (Copy)")) = titleOf orig ++ " (Copy)" ∧
    itemIds (withTitle (deepCloneItem g orig c).1
      (titleOf (deepCloneItem g orig c).1 ++ " (Copy)")) =
      (List.range' c (itemIds orig).length).map g ∧
    (itemIds (withTitle (deepCloneItem g orig c).1
      (titleOf (deepCloneItem g orig c).1 ++ " (Copy)"))).length =
      (itemIds orig).length ∧
    (itemIds (withTitle (deepCloneItem g orig c).1
      (titleOf (deepCloneItem g orig c).1 ++ " (Copy)"))).Nodup ∧
    ∀ s ∈ itemIds (withTitle (deepCloneItem g orig c).1
      (titleOf (deepCloneItem g orig c).1 ++ " (Copy)")), s ∉ itemIds orig := by
  have hids : itemIds (withTitle (deepCloneItem g orig c).1
      (titleOf (deepCloneItem g orig c).1 ++ " (Copy)")) =
      (List.range' c (itemIds orig).length).map g := by
    rw [itemIds_withTitle, itemIds_deepCloneItem]
  refine ⟨?_, ?_, hids, ?_, ?_, ?_⟩
  · simp only [duplicateInList, findIdxById_append_cons itemId pre post orig hpre horig,
      getAt_append_cons pre post orig]
    have h1 := insertAt_append (withTitle (deepCloneItem g orig c).1
      (titleOf (deepCloneItem g orig c).1 ++ " (Copy)")) (pre ++ [orig]) post
    simpa using h1
  · rw [titleOf_withTitle, titleOf_deepCloneItem]
  · rw [hids]
    simp
  · rw [hids]
    exact hnodup
  · rw [hids]
    exact hfresh

/-- Witness for C5: duplicating a two item subtree with a generator that
is fresh on the consumed range. -/
theorem duplicateItem_uniqueness_witness :
    duplicateInList (fun n => if n = 0 then "n0" else "n1") 0 "k"
      ([] ++ AnyItem.folder "k" "F" none [.link "aa" "L" "uu" none none] :: []) =
      [] ++ AnyItem.folder "k" "F" none [.link "aa" "L" "uu" none none] ::
        withTitle (deepCloneItem (fun n => if n = 0 then "n0" else "n1")
            (AnyItem.folder "k" "F" none [.link "aa" "L" "uu" none none]) 0).1
          (titleOf (deepCloneItem (fun n => if n = 0 then "n0" else "n1")
            (AnyItem.folder "k" "F" none [.link "aa" "L" "uu" none none]) 0).1
            ++ " (Copy)") :: [] :=
  (duplicateItem_uniqueness (fun n => if n = 0 then "n0" else "n1") 0 "k" [] []
    (AnyItem.folder "k" "F" none [.link "aa" "L" "uu" none none])
    (by decide) (by decide) (by decide) (by decide)).1

/-- C6: moving the identified item by delta 1 swaps it with its
successor and by delta -1 with its predecessor, every other position
unchanged; moving the first item up or the last item down leaves the
child list entirely unchanged (no wrap around). -/
theorem moveItem_swap_boundary (itemId : String) (pre post rest : List AnyItem)
    (a b : AnyItem) :
    ((∀ x ∈ pre, idOf x ≠ itemId) → idOf a = itemId →
      moveInList itemId 1 (pre ++ a :: b :: post) = pre ++ b :: a :: post) ∧
    ((∀ x ∈ pre, idOf x ≠ itemId) → idOf a ≠ itemId → idOf b = itemId →
      moveInList itemId (-1) (pre ++ a :: b :: post) = pre ++ b :: a :: post) ∧
    (idOf a = itemId → moveInList itemId (-1) (a :: rest) = a :: rest) ∧
    ((∀ x ∈ pre, idOf x ≠ itemId) → idOf a = itemId →
      moveInList itemId 1 (pre ++ [a]) = pre ++ [a]) := by
  refine ⟨?_, ?_, ?_, ?_⟩
  · intro hpre ha
    have hfind : findIdxById itemId (pre ++ a :: b :: post) = some pre.length :=
      findIdxById_append_cons itemId pre (b :: post) a hpre ha
    have hget : (pre ++ a :: b :: post).get? pre.length = some a :=
      getAt_append_cons pre (b :: post) a
    have hcond : ¬(((pre.length : Int) + 1) < 0 ∨
        ((pre ++ a :: b :: post).length : Int) ≤ (pre.length : Int) + 1) := by
      simp only [List.length_append, List.length_cons]
      push_cast
      omega
    have htn : (((pre.length : Int)) + 1).toNat = pre.length + 1 := by omega
    have herase := eraseAt_append_cons pre (b :: post) a
    have hins := insertAt_append a (pre ++ [b]) post
    simp only [moveInList, hfind, hget, if_neg hcond, htn, herase]
    simpa using hins
  · intro hpre ha hb
    have hpre2 : ∀ x ∈ pre ++ [a], idOf x ≠ itemId := by
      intro x hx
      rcases List.mem_append.mp hx with h | h
      · exact hpre x h
      · simp at h
        subst h
        exact ha
    have hfind : findIdxById itemId ((pre ++ [a]) ++ b :: post) =
        some (pre ++ [a]).length :=
      findIdxById_append_cons itemId (pre ++ [a]) post b hpre2 hb
    have hget : ((pre ++ [a]) ++ b :: post).get? (pre ++ [a]).length = some b :=
      getAt_append_cons (pre ++ [a]) post b
    have hcond : ¬((((pre ++ [a]).length : Int) + (-1)) < 0 ∨
        (((pre ++ [a]) ++ b :: post).length : Int) ≤ ((pre ++ [a]).length : Int) + (-1)) := by
      simp only [List.length_append, List.length_cons]
      push_cast
      omega
    have htn : (((pre ++ [a]).length : Int) + (-1)).toNat = pre.length := by
      simp only [List.length_append, List.length_cons, List.length_nil]
      omega
    have herase := eraseAt_append_cons (pre ++ [a]) post b
    have hins := insertAt_append b pre (a :: post)
    have hassoc : (pre ++ [a]) ++ b :: post = pre ++ a :: b :: post := by simp
    rw [← hassoc]
    simp only [moveInList, hfind, hget, if_neg hcond, htn, herase]
    simpa using hins
  · intro ha
    have hfind : findIdxById itemId (a :: rest) = some 0 := by
      simp [findIdxById, ha]
    have hcond : (((0 : Nat) : Int) + (-1)) < 0 ∨
        (((a :: rest).length : Int) ≤ ((0 : Nat) : Int) + (-1)) := by
      left
      omega
    simp only [moveInList, hfind, if_pos hcond]
  · intro hpre ha
    have hfind : findIdxById itemId (pre ++ [a]) = some pre.length :=
      findIdxById_append_cons itemId pre [] a hpre ha
    have hcond : (((pre.length : Nat) : Int) + 1) < 0 ∨
        (((pre ++ [a]).length : Int) ≤ ((pre.length : Nat) : Int) + 1) := by
      right
      simp only [List.length_append, List.length_cons, List.length_nil]
      push_cast
      omega
    simp only [moveInList, hfind, if_pos hcond]

/-- Witness for C6: swapping two adjacent links at the head of a list. -/
theorem moveItem_swap_boundary_witness :
    moveInList "b" 1 ([] ++ AnyItem.link "b" "B" "ub" none none ::
        AnyItem.link "c" "C" "uc" none none :: []) =
      [] ++ AnyItem.link "c" "C" "uc" none none ::
        AnyItem.link "b" "B" "ub" none none :: [] :=
  (moveItem_swap_boundary "b" [] [] []
    (AnyItem.link "b" "B" "ub" none none)
    (AnyItem.link "c" "C" "uc" none none)).1 (by decide) (by decide)

mutual

theorem applyAtItem_count_zero (fid : String) (u : List AnyItem → List AnyItem)
    (x : AnyItem) (h : countFolderId fid x = 0) : applyAtItem fid u x = x := by
  cases x with
  | link i t url ic ap => simp [applyAtItem]
  | folder i t ic cs =>
    have hi : ¬ i = fid := by
      intro he
      simp [countFolderId, he] at h
    simp only [countFolderId, hi, if_neg, not_false_iff, Nat.zero_add] at h
    simp [applyAtItem, hi, applyAtList_count_zero fid u cs h]

theorem applyAtList_count_zero (fid : String) (u : List AnyItem → List AnyItem)
    (l : List AnyItem) (h : countListId fid l = 0) : applyAtList fid u l = l := by
  cases l with
  | nil => rfl
  | cons x xs =>
    simp only [countListId, Nat.add_eq_zero] at h
    simp [applyAtList, applyAtItem_count_zero fid u x h.1,
      applyAtList_count_zero fid u xs h.2]

end

theorem traverseUpd_count_zero (fid : String) (u : List AnyItem → List AnyItem) :
    ∀ l : List AnyItem, countListId fid l = 0 → traverseUpd fid u l = (l, false)
  | [], _ => by simp [traverseUpd]
  | .link i t url ic ap :: rest, h => by
    have hr : countListId fid rest = 0 := by
      simpa [countListId, countFolderId] using h
    simp [traverseUpd, traverseUpd_count_zero fid u rest hr]
  | .folder i t ic cs :: rest, h => by
    have hi : ¬ i = fid := by
      intro he
      simp [countListId, countFolderId, he] at h
    simp only [countListId, countFolderId, hi, if_neg, not_false_iff, Nat.zero_add,
      Nat.add_eq_zero] at h
    simp [traverseUpd, hi, traverseUpd_count_zero fid u cs h.1,
      traverseUpd_count_zero fid u rest h.2]

theorem traverseUpd_flag (fid : String) (u : List AnyItem → List AnyItem) :
    ∀ l : List AnyItem, countListId fid l ≠ 0 → (traverseUpd fid u l).2 = true
  | [], h => by simp [countListId] at h
  | .link i t url ic ap :: rest, h => by
    have hr : countListId fid rest ≠ 0 := by
      simpa [countListId, countFolderId] using h
    simp [traverseUpd, traverseUpd_flag fid u rest hr]
  | .folder i t ic cs :: rest, h => by
    by_cases hi : i = fid
    · simp [traverseUpd, hi]
    · by_cases hcs : countListId fid cs = 0
      · have hrest : countListId fid rest ≠ 0 := by
          simp only [countListId, countFolderId, hi, if_neg, not_false_iff,
            Nat.zero_add, hcs] at h
          simpa using h
        simp [traverseUpd, hi, traverseUpd_count_zero fid u cs hcs,
          traverseUpd_flag fid u rest hrest]
      · simp [traverseUpd, hi, traverseUpd_flag fid u cs hcs]

theorem traverseUpd_apply (fid : String) (u : List AnyItem → List AnyItem) :
    ∀ l : List AnyItem, countListId fid l ≤ 1 →
      (traverseUpd fid u l).1 = applyAtList fid u l
  | [], _ => by simp [traverseUpd, applyAtList]
  | .link i t url ic ap :: rest, h => by
    have hr : countListId fid rest ≤ 1 := by
      simpa [countListId, countFolderId] using h
    simp [traverseUpd, applyAtList, applyAtItem, traverseUpd_apply fid u rest hr]
  | .folder i t ic cs :: rest, h => by
    by_cases hi : i = fid
    · have h0 : countListId fid cs = 0 ∧ countListId fid rest = 0 := by
        simp only [countListId, countFolderId, hi, if_pos] at h
        omega
      simp [traverseUpd, applyAtList, applyAtItem, hi,
        applyAtList_count_zero fid u rest h0.2]
    · by_cases hcs : countListId fid cs = 0
      · have hrest : countListId fid rest ≤ 1 := by
          simp only [countListId, countFolderId, hi, if_neg, not_false_iff,
            Nat.zero_add, hcs] at h
          omega
        simp [traverseUpd, applyAtList, applyAtItem, hi,
          traverseUpd_count_zero fid u cs hcs,
          applyAtList_count_zero fid u cs hcs,
          traverseUpd_apply fid u rest hrest]
      · have hcount : countListId fid cs ≤ 1 ∧ countListId fid rest = 0 := by
          simp only [countListId, countFolderId, hi, if_neg, not_false_iff,
            Nat.zero_add] at h
          omega
        simp [traverseUpd, applyAtList, applyAtItem, hi,
          traverseUpd_flag fid u cs hcs,
          traverseUpd_apply fid u cs hcount.1,
          applyAtList_count_zero fid u rest hcount.2]

/-- C1 counterexample: with the empty string as folder id and no folder
carrying that id anywhere, updateFolder is not a no-op: the JavaScript
guard treats the empty string like null and applies the updater to the
top level. -/
theorem updateFolder_empty_id_counterexample :
    countListId "" [AnyItem.link "a" "t" "u" none none] = 0 ∧
    updateFolder ⟨[AnyItem.link "a" "t" "u" none none]⟩ (some "") (fun _ => []) ≠
      ⟨[AnyItem.link "a" "t" "u" none none]⟩ := by
  constructor
  · rfl
  · simp [updateFolder]

/-- C1 amended: with a null folder id the updater is applied to the top
level child list only; with a non-empty folder id occurring at most once
as a folder id, the updater is applied exactly to the child list of every
folder with that id, wherever nested (hence, to the unique one), and
nothing else changes; with a non-empty folder id occurring nowhere the
tree is returned unchanged.  The empty string id is excluded: the source
guard coerces it like null. -/
theorem updateFolder_scoping (d : LinksData) (u : List AnyItem → List AnyItem)
    (fid : String) :
    updateFolder d none u = ⟨u d.items⟩ ∧
    (fid ≠ "" → countListId fid d.items ≤ 1 →
      updateFolder d (some fid) u = ⟨applyAtList fid u d.items⟩) ∧
    (fid ≠ "" → countListId fid d.items = 0 →
      updateFolder d (some fid) u = d) := by
  refine ⟨rfl, ?_, ?_⟩
  · intro h1 h2
    simp [updateFolder, h1, traverseUpd_apply fid u d.items h2]
  · intro h1 h2
    simp [updateFolder, h1, traverseUpd_count_zero fid u d.items h2]

/-- Witness for C1: updating the children of a uniquely identified
nested folder. -/
theorem updateFolder_scoping_witness :
    updateFolder ⟨[AnyItem.folder "x" "T" none [AnyItem.link "a" "b" "u" none none]]⟩
      (some "x") (fun _ => []) =
      ⟨applyAtList "x" (fun _ => [])
        [AnyItem.folder "x" "T" none [AnyItem.link "a" "b" "u" none none]]⟩ :=
  (updateFolder_scoping
    ⟨[AnyItem.folder "x" "T" none [AnyItem.link "a" "b" "u" none none]]⟩
    (fun _ => []) "x").2.1 (by decide) (by decide)

end LinksFolder
